import Mathlib

/-!
Verification of the grocery-purchase assistant's translation-memory cache
(`file_trans.py`) and fuzzy mapping pipeline (`map_purchases.py`).

The persisted CSV store is modelled as `Option (List Entry)` (`none` = the
file does not exist, `some rows` = the file's data rows in order).  Pandas
`drop_duplicates(subset=['id'], keep='last')` keeps, in their original
order, exactly the rows whose `id` does not occur in any later row.
-/

/-- One row of `product_translation_memory.csv`. -/
structure Entry where
  id : String
  dutch_title : String
  english_title : String
deriving DecidableEq

/-- `df.drop_duplicates(subset=['id'], keep='last')`: keep a row iff no
later row carries the same `id`, preserving the order of kept rows. -/
def dropDupKeepLast : List Entry → List Entry
  | [] => []
  | e :: rest =>
    if rest.any (fun x => x.id == e.id) then dropDupKeepLast rest
    else e :: dropDupKeepLast rest

/-- `update_memory_safely` from `file_trans.py`: early-return on an empty
new-entries frame; otherwise read the existing file (empty frame when the
file is missing), concatenate old ++ new, deduplicate on `id` keeping the
last occurrence, and overwrite the file with the result. -/
def update_memory_safely (fileState : Option (List Entry))
    (new_entries : List Entry) : Option (List Entry) :=
  if new_entries = [] then fileState
  else
    let existing := fileState.getD []
    let combined := existing ++ new_entries
    some (dropDupKeepLast combined)

/-- `load_translation_memory` from `file_trans.py`: a missing file is
created empty and `{}` is returned; otherwise rows are deduplicated on
`id` (keep last) and, when that dropped anything, the cleaned rows are
written back; the returned dict maps `id` to `english_title` of the
deduplicated rows.  Result: (file state afterwards, returned dict). -/
def load_translation_memory (fileState : Option (List Entry)) :
    Option (List Entry) × List (String × String) :=
  match fileState with
  | none => (some [], [])
  | some rows =>
    let deduped := dropDupKeepLast rows
    let newFile := if deduped.length < rows.length then some deduped else some rows
    (newFile, deduped.map (fun e => (e.id, e.english_title)))

/-- Text stored for identifier `k`: the first row of the store whose `id`
is `k` (stores produced by dedup have at most one such row). -/
def entryLookup (store : List Entry) (k : String) : Option String :=
  (store.find? (fun e => e.id == k)).map (fun e => e.english_title)

/-- Text of the most recently written row carrying identifier `k`. -/
def lastLookup (rows : List Entry) (k : String) : Option String :=
  (rows.reverse.find? (fun e => e.id == k)).map (fun e => e.english_title)

/-- Lookup in an id → english_title association list. -/
def mapLookup (m : List (String × String)) (k : String) : Option String :=
  (m.find? (fun p => p.1 == k)).map (fun p => p.2)

theorem dropDupKeepLast_cons_pos {e : Entry} {rest : List Entry}
    (h : rest.any (fun x => x.id == e.id) = true) :
    dropDupKeepLast (e :: rest) = dropDupKeepLast rest := by
  simp [dropDupKeepLast, h]

theorem dropDupKeepLast_cons_neg {e : Entry} {rest : List Entry}
    (h : rest.any (fun x => x.id == e.id) = false) :
    dropDupKeepLast (e :: rest) = e :: dropDupKeepLast rest := by
  simp [dropDupKeepLast, h]

theorem dropDupKeepLast_sublist (l : List Entry) :
    List.Sublist (dropDupKeepLast l) l := by
  induction l with
  | nil => simp [dropDupKeepLast]
  | cons e rest ih =>
    by_cases h : rest.any (fun x => x.id == e.id) = true
    · rw [dropDupKeepLast_cons_pos h]
      exact ih.trans (List.sublist_cons_self e rest)
    · rw [dropDupKeepLast_cons_neg (by simpa using h)]
      exact ih.cons₂ e

theorem mem_of_mem_dropDupKeepLast {e : Entry} {l : List Entry}
    (h : e ∈ dropDupKeepLast l) : e ∈ l :=
  (dropDupKeepLast_sublist l).mem h

theorem dropDupKeepLast_append (a b : List Entry) :
    dropDupKeepLast (a ++ b) =
      (dropDupKeepLast a).filter (fun e => !(b.any (fun x => x.id == e.id)))
        ++ dropDupKeepLast b := by
  induction a with
  | nil => simp [dropDupKeepLast]
  | cons e a ih =>
    rw [List.cons_append]
    by_cases ha : a.any (fun x => x.id == e.id) = true
    · have hab : (a ++ b).any (fun x => x.id == e.id) = true := by
        rw [List.any_append, ha, Bool.true_or]
      rw [dropDupKeepLast_cons_pos hab, ih, dropDupKeepLast_cons_pos ha]
    · have ha' : a.any (fun x => x.id == e.id) = false := by simpa using ha
      by_cases hb : b.any (fun x => x.id == e.id) = true
      · have hab : (a ++ b).any (fun x => x.id == e.id) = true := by
          rw [List.any_append, ha', hb]; rfl
        rw [dropDupKeepLast_cons_pos hab, ih, dropDupKeepLast_cons_neg ha',
          List.filter_cons]
        simp [hb]
      · have hb' : b.any (fun x => x.id == e.id) = false := by simpa using hb
        have hab : (a ++ b).any (fun x => x.id == e.id) = false := by
          rw [List.any_append, ha', hb']; rfl
        rw [dropDupKeepLast_cons_neg hab, ih, dropDupKeepLast_cons_neg ha',
          List.filter_cons]
        simp [hb']

/-- Kept rows have pairwise distinct `id`s. -/
theorem dropDupKeepLast_pairwise (l : List Entry) :
    (dropDupKeepLast l).Pairwise (fun p q => p.id ≠ q.id) := by
  induction l with
  | nil => simp [dropDupKeepLast]
  | cons e rest ih =>
    by_cases h : rest.any (fun x => x.id == e.id) = true
    · rw [dropDupKeepLast_cons_pos h]; exact ih
    · have h' : rest.any (fun x => x.id == e.id) = false := by simpa using h
      rw [dropDupKeepLast_cons_neg h']
      refine List.Pairwise.cons ?_ ih
      intro q hq
      have hq' : q ∈ rest := mem_of_mem_dropDupKeepLast hq
      have := List.any_eq_false.mp h' q hq'
      rw [Bool.not_eq_true, beq_eq_false_iff_ne] at this
      exact fun he => this he.symm

/-- A list whose `id`s are pairwise distinct is unchanged by dedup. -/
theorem dropDupKeepLast_of_pairwise {l : List Entry}
    (h : l.Pairwise (fun p q => p.id ≠ q.id)) : dropDupKeepLast l = l := by
  induction l with
  | nil => rfl
  | cons e rest ih =>
    rcases List.pairwise_cons.mp h with ⟨he, hrest⟩
    have hfalse : rest.any (fun x => x.id == e.id) = false := by
      rw [List.any_eq_false]
      intro x hx
      rw [Bool.not_eq_true, beq_eq_false_iff_ne]
      exact (he x hx).symm
    rw [dropDupKeepLast_cons_neg hfalse, ih hrest]

theorem dropDupKeepLast_idem (l : List Entry) :
    dropDupKeepLast (dropDupKeepLast l) = dropDupKeepLast l :=
  dropDupKeepLast_of_pairwise (dropDupKeepLast_pairwise l)

/-- The unique kept row for an id is the last original row with that id. -/
theorem dropDupKeepLast_find? (l : List Entry) (k : String) :
    (dropDupKeepLast l).find? (fun e => e.id == k)
      = l.reverse.find? (fun e => e.id == k) := by
  induction l with
  | nil => simp [dropDupKeepLast]
  | cons e rest ih =>
    rw [List.reverse_cons, List.find?_append]
    by_cases h : rest.any (fun x => x.id == e.id) = true
    · rw [dropDupKeepLast_cons_pos h, ih]
      by_cases hk : e.id = k
      · have hsome : (rest.reverse.find? (fun x => x.id == k)).isSome = true := by
          rw [List.find?_isSome]
          rcases List.any_eq_true.mp h with ⟨x, hx, hxe⟩
          rw [beq_iff_eq] at hxe
          exact ⟨x, by simpa using hx, by rw [beq_iff_eq, hxe, hk]⟩
        rcases Option.isSome_iff_exists.mp hsome with ⟨x, hx⟩
        rw [hx]; rfl
      · have he : (e.id == k) = false := by rw [beq_eq_false_iff_ne]; exact hk
        have hnil : List.find? (fun x => x.id == k) [e] = none := by
          simp [List.find?, he]
        rw [hnil, Option.or_none]
    · have h' : rest.any (fun x => x.id == e.id) = false := by simpa using h
      rw [dropDupKeepLast_cons_neg h']
      by_cases hk : e.id = k
      · have hnone : rest.reverse.find? (fun x => x.id == k) = none := by
          rw [List.find?_eq_none]
          intro x hx
          have hx' : x ∈ rest := by simpa using hx
          have := List.any_eq_false.mp h' x hx'
          rw [Bool.not_eq_true] at this ⊢
          rw [beq_eq_false_iff_ne] at this ⊢
          rw [← hk]; exact this
        rw [hnone, Option.none_or]
        have he : (e.id == k) = true := by rw [beq_iff_eq]; exact hk
        rw [List.find?_cons, he, List.find?_cons, he]
      · have he : (e.id == k) = false := by rw [beq_eq_false_iff_ne]; exact hk
        have hnil : List.find? (fun x => x.id == k) [e] = none := by
          simp [List.find?, he]
        rw [List.find?_cons, he, ih, hnil, Option.or_none]

/-- Merging the same batch `E` into an already-merged store changes nothing. -/
theorem dropDupKeepLast_merge_idem (ex E : List Entry) :
    dropDupKeepLast (dropDupKeepLast (ex ++ E) ++ E) = dropDupKeepLast (ex ++ E) := by
  have h1 : ∀ (p : Entry → Bool) (l : List Entry),
      (l.filter p).filter p = l.filter p := by
    intro p l
    rw [List.filter_filter]
    congr 1
    funext a
    exact Bool.and_self _
  have h2 : (dropDupKeepLast E).filter
      (fun e => !(E.any (fun x => x.id == e.id))) = [] := by
    rw [List.filter_eq_nil_iff]
    intro x hx
    have hxE : x ∈ E := mem_of_mem_dropDupKeepLast hx
    have hany : E.any (fun y => y.id == x.id) = true :=
      List.any_eq_true.mpr ⟨x, hxE, by simp⟩
    simp [hany]
  rw [dropDupKeepLast_append (dropDupKeepLast (ex ++ E)) E, dropDupKeepLast_idem,
    dropDupKeepLast_append ex E, List.filter_append, h1, h2, List.append_nil]

/-- C1 (cache merge idempotence): for every non-empty batch of rows `E`,
running `update_memory_safely E` on the store produced by
`update_memory_safely E` leaves the persisted store exactly equal to the
store after a single `update_memory_safely E`. -/
theorem update_memory_safely_idem (fs : Option (List Entry)) (E : List Entry)
    (hE : E ≠ []) :
    update_memory_safely (update_memory_safely fs E) E
      = update_memory_safely fs E := by
  simp only [update_memory_safely, if_neg hE, Option.getD_some]
  rw [dropDupKeepLast_merge_idem]

/-- Witness for C1 at a concrete store and batch. -/
theorem update_memory_safely_idem_witness :
    ([Entry.mk "1" "melk" "milk"] ≠ ([] : List Entry)) ∧
    update_memory_safely
        (update_memory_safely (some [Entry.mk "2" "kaas" "cheese"])
          [Entry.mk "1" "melk" "milk"])
        [Entry.mk "1" "melk" "milk"]
      = update_memory_safely (some [Entry.mk "2" "kaas" "cheese"])
          [Entry.mk "1" "melk" "milk"] :=
  ⟨by decide, update_memory_safely_idem _ _ (by decide)⟩

/-- C2 (cache last-write-wins): for two entries `a`, `b` with the same
identifier and different translated text, merging `a` then `b` — in one
`update_memory_safely` call or across two successive calls — produces a
persisted store whose entry for that identifier holds `b`'s text,
whatever `a` contained. -/
theorem update_memory_safely_lww (fs : Option (List Entry)) (a b : Entry)
    (_hid : a.id = b.id) (_hne : a.english_title ≠ b.english_title) :
    (∃ s, update_memory_safely fs [a, b] = some s ∧
      entryLookup s b.id = some b.english_title) ∧
    (∃ s, update_memory_safely (update_memory_safely fs [a]) [b] = some s ∧
      entryLookup s b.id = some b.english_title) := by
  constructor
  · refine ⟨dropDupKeepLast (fs.getD [] ++ [a, b]), by simp [update_memory_safely], ?_⟩
    unfold entryLookup
    rw [dropDupKeepLast_find?, List.reverse_append]
    simp [List.find?]
  · refine ⟨dropDupKeepLast (dropDupKeepLast (fs.getD [] ++ [a]) ++ [b]),
      by simp [update_memory_safely], ?_⟩
    unfold entryLookup
    rw [dropDupKeepLast_find?, List.reverse_append]
    simp [List.find?]

/-- Witness for C2 at a concrete store and entry pair. -/
theorem update_memory_safely_lww_witness :
    ((Entry.mk "1" "melk" "old").id = (Entry.mk "1" "melk" "new").id ∧
      (Entry.mk "1" "melk" "old").english_title
        ≠ (Entry.mk "1" "melk" "new").english_title) ∧
    ((∃ s, update_memory_safely (some []) [Entry.mk "1" "melk" "old",
        Entry.mk "1" "melk" "new"] = some s ∧
        entryLookup s (Entry.mk "1" "melk" "new").id = some "new") ∧
     (∃ s, update_memory_safely
        (update_memory_safely (some []) [Entry.mk "1" "melk" "old"])
        [Entry.mk "1" "melk" "new"] = some s ∧
        entryLookup s (Entry.mk "1" "melk" "new").id = some "new")) :=
  ⟨⟨by decide, by decide⟩,
    update_memory_safely_lww (some []) _ _ (by decide) (by decide)⟩

/-- C3 (load dedup invariant and self-healing): loading any persisted
store returns a map with pairwise-distinct identifiers, in which every
identifier resolves to the text of the most recently written row carrying
it, and leaves the file holding rows whose id→english_title content
equals the returned map (the cleaned rows having been persisted when
duplicates were present). -/
theorem load_translation_memory_spec (rows : List Entry) :
    ((load_translation_memory (some rows)).2.Pairwise (fun p q => p.1 ≠ q.1)) ∧
    (∀ k, mapLookup (load_translation_memory (some rows)).2 k = lastLookup rows k) ∧
    (∃ l, (load_translation_memory (some rows)).1 = some l ∧
      l.map (fun e => (e.id, e.english_title))
        = (load_translation_memory (some rows)).2) := by
  refine ⟨?_, ?_, ?_⟩
  · simp only [load_translation_memory]
    exact (List.pairwise_map).mpr (dropDupKeepLast_pairwise rows)
  · intro k
    simp only [load_translation_memory, mapLookup, lastLookup, List.find?_map]
    rw [show ((fun (p : String × String) => p.1 == k)
        ∘ fun (e : Entry) => (e.id, e.english_title))
        = fun (e : Entry) => e.id == k from rfl]
    rw [dropDupKeepLast_find?, Option.map_map]
    rfl
  · by_cases hlt : (dropDupKeepLast rows).length < rows.length
    · exact ⟨dropDupKeepLast rows, by simp [load_translation_memory, hlt], by
        simp [load_translation_memory]⟩
    · have heq : dropDupKeepLast rows = rows :=
        (dropDupKeepLast_sublist rows).eq_of_length
          (Nat.le_antisymm (dropDupKeepLast_sublist rows).length_le
            (Nat.le_of_not_lt hlt))
      exact ⟨rows, by simp [load_translation_memory, hlt], by
        simp [load_translation_memory, heq]⟩

/-- C10 (empty merge is a no-op): `update_memory_safely` with an empty
new-entries frame returns before touching the file, so any store state —
duplicates included — persists unchanged and no cleaning happens. -/
theorem update_memory_safely_empty_noop (fs : Option (List Entry)) :
    update_memory_safely fs [] = fs := by
  simp [update_memory_safely]

/-! ### Batch translator (`translate_text_batch` in `file_trans.py`) -/

/-- A Python value in the input list: a string or some non-string. -/
inductive PyVal
  | vstr (s : String)
  | vother (tag : Nat)
deriving DecidableEq

/-- Python `str.strip()`: whitespace removed from both ends. -/
def pyStrip (s : String) : String :=
  ⟨((s.data.dropWhile Char.isWhitespace).reverse.dropWhile
      Char.isWhitespace).reverse⟩

/-- The strings eligible for translation:
`[t for t in text_list if isinstance(t, str) and t.strip()]`. -/
def filteredStrings (text_list : List PyVal) : List String :=
  text_list.filterMap (fun v => match v with
    | .vstr s => if pyStrip s = "" then none else some s
    | .vother _ => none)

def BATCH_SIZE : Nat := 50

/-- Slices `l[i : i+BATCH_SIZE]` for `i in range(0, len(l), BATCH_SIZE)`,
driven by a fuel that any `fuel ≥ l.length` saturates. -/
def chunksFuel : Nat → List String → List (List String)
  | _, [] => []
  | 0, _ => []
  | fuel + 1, l => l.take BATCH_SIZE :: chunksFuel fuel (l.drop BATCH_SIZE)

/-- The successive batches of at most `BATCH_SIZE` texts. -/
def chunksB (l : List String) : List (List String) := chunksFuel l.length l

/-- The `translation_map` dict after the batch loop: a batch whose service
call succeeds contributes `(original, translated)` for each member, a
failing batch contributes the identity fallback `(item, item)`. -/
def buildMap (tr : String → String) (ok : List String → Bool) :
    List (List String) → List (String × String)
  | [] => []
  | c :: cs =>
    (if ok c then c.map (fun s => (s, tr s)) else c.map (fun s => (s, s)))
      ++ buildMap tr ok cs

/-- `translation_map.get(t, t)`. -/
def dictGet (m : List (String × String)) (t : String) : String :=
  match m.find? (fun p => p.1 == t) with
  | some p => p.2
  | none => t

/-- `translation_map.get(t, t) if isinstance(t, str) else t`. -/
def applyMap (m : List (String × String)) : PyVal → PyVal
  | .vstr s => .vstr (dictGet m s)
  | .vother n => .vother n

/-- `translate_text_batch` from `file_trans.py`.  The external service is
abstracted by `tr` (the translation a successful batch call returns for
each string) and `ok` (whether a batch call succeeds); `uniq` stands for
`list(set(filtered))`, whose order Python does not specify, so it is a
parameter constrained by the theorems' hypotheses. -/
def translate_text_batch (tr : String → String) (ok : List String → Bool)
    (uniq : List String) (text_list : List PyVal) : List PyVal :=
  if uniq = [] then text_list
  else text_list.map (applyMap (buildMap tr ok (chunksB uniq)))

/-- Positionwise effect of a successful translation on one input value. -/
def pyTr (tr : String → String) : PyVal → PyVal
  | .vstr s => .vstr (tr s)
  | .vother n => .vother n

theorem chunksFuel_join : ∀ (fuel : Nat) (l : List String),
    l.length ≤ fuel → (chunksFuel fuel l).flatten = l := by
  intro fuel
  induction fuel with
  | zero =>
    intro l hl
    have : l = [] := List.eq_nil_of_length_eq_zero (Nat.le_zero.mp hl)
    subst this
    rfl
  | succ n ih =>
    intro l hl
    cases l with
    | nil => rfl
    | cons x xs =>
      have hlen : ((x :: xs).drop BATCH_SIZE).length ≤ n := by
        rw [List.length_drop, List.length_cons]
        rw [List.length_cons] at hl
        simp only [BATCH_SIZE]
        omega
      rw [show chunksFuel (n + 1) (x :: xs)
          = (x :: xs).take BATCH_SIZE
            :: chunksFuel n ((x :: xs).drop BATCH_SIZE) from rfl]
      rw [List.flatten_cons, ih _ hlen, List.take_append_drop]

theorem chunksB_join (l : List String) : (chunksB l).flatten = l :=
  chunksFuel_join l.length l (le_refl _)

theorem buildMap_val (tr : String → String) (ok : List String → Bool) :
    ∀ (cs : List (List String)) (p : String × String),
      p ∈ buildMap tr ok cs → p.2 = tr p.1 ∨ p.2 = p.1 := by
  intro cs
  induction cs with
  | nil => intro p hp; simp [buildMap] at hp
  | cons c cs ih =>
    intro p hp
    rw [buildMap, List.mem_append] at hp
    rcases hp with hp | hp
    · by_cases hok : ok c = true
      · rw [if_pos hok] at hp
        rcases List.mem_map.mp hp with ⟨x, _, hx⟩
        left; rw [← hx]
      · rw [if_neg hok] at hp
        rcases List.mem_map.mp hp with ⟨x, _, hx⟩
        right; rw [← hx]
    · exact ih p hp

theorem buildMap_key_mem (tr : String → String) (ok : List String → Bool) :
    ∀ (cs : List (List String)) (p : String × String),
      p ∈ buildMap tr ok cs → p.1 ∈ cs.flatten := by
  intro cs
  induction cs with
  | nil => intro p hp; simp [buildMap] at hp
  | cons c cs ih =>
    intro p hp
    rw [buildMap, List.mem_append] at hp
    rw [List.flatten_cons, List.mem_append]
    rcases hp with hp | hp
    · left
      by_cases hok : ok c = true
      · rw [if_pos hok] at hp
        rcases List.mem_map.mp hp with ⟨x, hx, hfx⟩
        rw [← hfx]; exact hx
      · rw [if_neg hok] at hp
        rcases List.mem_map.mp hp with ⟨x, hx, hfx⟩
        rw [← hfx]; exact hx
    · right; exact ih p hp

theorem dictGet_or (tr : String → String) (ok : List String → Bool)
    (cs : List (List String)) (s : String) :
    dictGet (buildMap tr ok cs) s = tr s ∨ dictGet (buildMap tr ok cs) s = s := by
  unfold dictGet
  cases hf : (buildMap tr ok cs).find? (fun p => p.1 == s) with
  | none => right; rfl
  | some p =>
    have hp : p.1 = s := by
      have := List.find?_some hf
      simpa using this
    have hmem := List.mem_of_find?_eq_some hf
    rcases buildMap_val tr ok cs p hmem with h | h
    · left; show p.2 = tr s; rw [h, hp]
    · right; show p.2 = s; rw [h, hp]

theorem dictGet_not_key (m : List (String × String)) (s : String)
    (h : ∀ p ∈ m, p.1 ≠ s) : dictGet m s = s := by
  unfold dictGet
  have : m.find? (fun p => p.1 == s) = none := by
    rw [List.find?_eq_none]
    intro p hp
    rw [Bool.not_eq_true, beq_eq_false_iff_ne]
    exact h p hp
  rw [this]

theorem find?_self_mem {l : List String} {s : String} (h : s ∈ l) :
    l.find? (fun x => x == s) = some s := by
  induction l with
  | nil => cases h
  | cons a l ih =>
    rcases List.mem_cons.mp h with rfl | h'
    · simp [List.find?]
    · by_cases ha : a = s
      · subst ha; simp [List.find?]
      · have haf : (a == s) = false := by rw [beq_eq_false_iff_ne]; exact ha
        rw [List.find?_cons, haf]
        exact ih h'

/-- A string in a batch whose service call failed maps to itself. -/
theorem dictGet_buildMap_failed (tr : String → String)
    (ok : List String → Bool) :
    ∀ (cs : List (List String)) (c : List String) (s : String),
      cs.flatten.Nodup → c ∈ cs → s ∈ c → ok c = false →
      dictGet (buildMap tr ok cs) s = s := by
  intro cs
  induction cs with
  | nil => intro c s _ hc; exact absurd hc (List.not_mem_nil c)
  | cons c₀ cs ih =>
    intro c s hnd hc hs hok
    rw [List.flatten_cons, List.nodup_append] at hnd
    rcases List.mem_cons.mp hc with rfl | hc'
    · unfold dictGet
      rw [buildMap, if_neg (by rw [hok]; exact Bool.false_ne_true),
        List.find?_append, List.find?_map]
      rw [show ((fun (p : String × String) => p.1 == s)
          ∘ fun x => (x, x)) = fun x => x == s from rfl]
      rw [find?_self_mem hs]
      rfl
    · have hsj : s ∈ cs.flatten := List.mem_flatten.mpr ⟨c, hc', hs⟩
      have hs0 : s ∉ c₀ := fun hin => hnd.2.2 hin hsj
      have hhead : ((if ok c₀ = true then c₀.map (fun x => (x, tr x))
          else c₀.map (fun x => (x, x))).find? (fun p => p.1 == s)) = none := by
        by_cases hok0 : ok c₀ = true
        · rw [if_pos hok0, List.find?_eq_none]
          intro p hp
          rcases List.mem_map.mp hp with ⟨x, hx, hfx⟩
          rw [Bool.not_eq_true, beq_eq_false_iff_ne, ← hfx]
          exact fun hxs => hs0 (hxs ▸ hx)
        · rw [if_neg hok0, List.find?_eq_none]
          intro p hp
          rcases List.mem_map.mp hp with ⟨x, hx, hfx⟩
          rw [Bool.not_eq_true, beq_eq_false_iff_ne, ← hfx]
          exact fun hxs => hs0 (hxs ▸ hx)
      have := ih c s hnd.2.1 hc' hs hok
      unfold dictGet at this ⊢
      rw [buildMap, List.find?_append, hhead, Option.none_or]
      exact this

theorem mem_filteredStrings {s : String} {text_list : List PyVal}
    (h : s ∈ filteredStrings text_list) : pyStrip s ≠ "" := by
  rcases List.mem_filterMap.mp h with ⟨v, _, hv⟩
  cases v with
  | vstr t =>
    by_cases ht : pyStrip t = ""
    · simp [ht] at hv
    · simp [ht] at hv
      rw [← hv]
      exact ht
  | vother n => simp at hv

/-- C4 (batch translator length/order invariant): for every input list —
repeats, empty strings and non-strings allowed — the output has the same
length, and position `i` holds either the service translation of input
`i` or input `i` unchanged; the unchanged case is guaranteed whenever
input `i` is an empty/whitespace string, a non-string, or a string whose
batch's service call failed. -/
theorem translate_text_batch_spec (tr : String → String)
    (ok : List String → Bool) (uniq : List String) (text_list : List PyVal)
    (hnd : uniq.Nodup)
    (hmem : ∀ s, s ∈ uniq ↔ s ∈ filteredStrings text_list) :
    (translate_text_batch tr ok uniq text_list).length = text_list.length ∧
    (∀ (i : Nat), (translate_text_batch tr ok uniq text_list)[i]?
        = (text_list[i]?).map (pyTr tr)
      ∨ (translate_text_batch tr ok uniq text_list)[i]? = text_list[i]?) ∧
    (∀ (i : Nat) s, text_list[i]? = some (PyVal.vstr s) → pyStrip s = "" →
      (translate_text_batch tr ok uniq text_list)[i]? = some (PyVal.vstr s)) ∧
    (∀ (i : Nat) n, text_list[i]? = some (PyVal.vother n) →
      (translate_text_batch tr ok uniq text_list)[i]? = some (PyVal.vother n)) ∧
    (∀ (i : Nat) s c, text_list[i]? = some (PyVal.vstr s) → c ∈ chunksB uniq → s ∈ c →
      ok c = false →
      (translate_text_batch tr ok uniq text_list)[i]? = some (PyVal.vstr s)) := by
  by_cases huniq : uniq = []
  · subst huniq
    refine ⟨by simp [translate_text_batch], ?_, ?_, ?_, ?_⟩
    · intro i; right; simp [translate_text_batch]
    · intro i s h _; simpa [translate_text_batch] using h
    · intro i n h; simpa [translate_text_batch] using h
    · intro i s c _ hc
      simp [chunksB, chunksFuel] at hc
  · have hne : ¬(uniq = []) := huniq
    unfold translate_text_batch
    rw [if_neg hne]
    refine ⟨List.length_map _ _, ?_, ?_, ?_, ?_⟩
    · intro i
      rw [List.getElem?_map]
      cases h : text_list[i]? with
      | none => right; simp
      | some v =>
        cases v with
        | vother n => right; simp [applyMap]
        | vstr s =>
          rcases dictGet_or tr ok (chunksB uniq) s with hd | hd
          · left; simp [applyMap, pyTr, hd]
          · right; simp [applyMap, hd]
    · intro i s h hstrip
      rw [List.getElem?_map, h]
      have hid : dictGet (buildMap tr ok (chunksB uniq)) s = s := by
        apply dictGet_not_key
        intro p hp hps
        have hkey : p.1 ∈ (chunksB uniq).flatten := buildMap_key_mem tr ok _ p hp
        rw [chunksB_join, hps] at hkey
        exact mem_filteredStrings ((hmem s).mp hkey) hstrip
      simp [applyMap, hid]
    · intro i n h
      rw [List.getElem?_map, h]
      simp [applyMap]
    · intro i s c h hc hsc hok
      rw [List.getElem?_map, h]
      have hnd' : (chunksB uniq).flatten.Nodup := by
        rw [chunksB_join]; exact hnd
      have hid := dictGet_buildMap_failed tr ok (chunksB uniq) c s hnd' hc hsc hok
      simp [applyMap, hid]

/-- Witness for C4 at a concrete input list, set order and service. -/
theorem translate_text_batch_spec_witness :
    ((["melk"] : List String).Nodup ∧
      (∀ s, s ∈ (["melk"] : List String)
        ↔ s ∈ filteredStrings
            [PyVal.vstr "melk", PyVal.vother 7, PyVal.vstr ""])) ∧
    ((translate_text_batch (fun s => String.append s "!") (fun _ => true)
        ["melk"] [PyVal.vstr "melk", PyVal.vother 7, PyVal.vstr ""]).length
      = ([PyVal.vstr "melk", PyVal.vother 7, PyVal.vstr ""] : List PyVal).length ∧
    (∀ (i : Nat), (translate_text_batch (fun s => String.append s "!") (fun _ => true)
        ["melk"] [PyVal.vstr "melk", PyVal.vother 7, PyVal.vstr ""])[i]?
        = (([PyVal.vstr "melk", PyVal.vother 7, PyVal.vstr ""] : List PyVal)[i]?).map
            (pyTr (fun s => String.append s "!"))
      ∨ (translate_text_batch (fun s => String.append s "!") (fun _ => true)
        ["melk"] [PyVal.vstr "melk", PyVal.vother 7, PyVal.vstr ""])[i]?
        = ([PyVal.vstr "melk", PyVal.vother 7, PyVal.vstr ""] : List PyVal)[i]?) ∧
    (∀ (i : Nat) s, ([PyVal.vstr "melk", PyVal.vother 7, PyVal.vstr ""] : List PyVal)[i]?
        = some (PyVal.vstr s) → pyStrip s = "" →
      (translate_text_batch (fun s => String.append s "!") (fun _ => true)
        ["melk"] [PyVal.vstr "melk", PyVal.vother 7, PyVal.vstr ""])[i]?
        = some (PyVal.vstr s)) ∧
    (∀ (i : Nat) n, ([PyVal.vstr "melk", PyVal.vother 7, PyVal.vstr ""] : List PyVal)[i]?
        = some (PyVal.vother n) →
      (translate_text_batch (fun s => String.append s "!") (fun _ => true)
        ["melk"] [PyVal.vstr "melk", PyVal.vother 7, PyVal.vstr ""])[i]?
        = some (PyVal.vother n)) ∧
    (∀ (i : Nat) s c, ([PyVal.vstr "melk", PyVal.vother 7, PyVal.vstr ""] : List PyVal)[i]?
        = some (PyVal.vstr s) → c ∈ chunksB ["melk"] → s ∈ c →
      (fun (_ : List String) => true) c = false →
      (translate_text_batch (fun s => String.append s "!") (fun _ => true)
        ["melk"] [PyVal.vstr "melk", PyVal.vother 7, PyVal.vstr ""])[i]?
        = some (PyVal.vstr s))) :=
  ⟨⟨by decide, fun s => Iff.rfl⟩,
    translate_text_batch_spec (fun s => String.append s "!") (fun _ => true)
      ["melk"] [PyVal.vstr "melk", PyVal.vother 7, PyVal.vstr ""]
      (by decide) (fun s => Iff.rfl)⟩

/-! ### Fuzzy mapping pipeline (`map_purchases.py`) -/

def MATCH_THRESHOLD : ℚ := 85

/-- Python `int()` applied to a score (scores are modelled as rationals;
`int()` truncates toward zero). -/
def pyInt (q : ℚ) : Int := if 0 ≤ q then ⌊q⌋ else ⌈q⌉

/-- Python `str.lower()`. -/
def pyLower (s : String) : String := ⟨s.data.map Char.toLower⟩

/-- Descending-score order on `(choice, score)` pairs, used to model the
ordering of `rapidfuzz.process.extract` results. -/
def scoreGE (a b : String × ℚ) : Prop := b.2 ≤ a.2

instance : DecidableRel scoreGE :=
  fun a b => inferInstanceAs (Decidable (b.2 ≤ a.2))

instance : IsTotal (String × ℚ) scoreGE := ⟨fun a b => le_total b.2 a.2⟩

instance : IsTrans (String × ℚ) scoreGE :=
  ⟨fun _ _ _ h1 h2 => le_trans h2 h1⟩

/-- `process.extract(query, keys, scorer, limit)`: the `limit`
highest-scoring choices, sorted by score descending.  The scorer
(rapidfuzz `fuzz.WRatio`, an external library) is the parameter `score`. -/
def extract (score : String → String → ℚ) (query : String)
    (keys : List String) (limit : Nat) : List (String × ℚ) :=
  (List.insertionSort scoreGE (keys.map (fun k => (k, score query k)))).take limit

/-- `choices_dict[name]` for the `{dutch_title: id}` dict. -/
def dGet (choices : List (String × String)) (name : String) : String :=
  ((choices.find? (fun p => p.1 == name)).map (fun p => p.2)).getD ""

/-- `find_best_matches` from `map_purchases.py`: of the (at most 3)
extract results, keep those whose score meets `MATCH_THRESHOLD`, as
`(prod_id, match_name, score)` triples. -/
def find_best_matches (score : String → String → ℚ) (query : String)
    (choices : List (String × String)) : List (String × String × ℚ) :=
  ((extract score query (choices.map (fun p => p.1)) 3).filter
      (fun r => MATCH_THRESHOLD ≤ r.2)).map
    (fun r => (dGet choices r.1, r.1, r.2))

/-- A purchase-ledger row; `extra` stands for every column other than the
four the pipeline reads or writes. -/
structure SheetRow where
  product_original : String
  store : String
  id : String
  ids : String
  extra : String
deriving DecidableEq

/-- The two ledger columns the pipeline ever stages writes for
(`col_id_idx` and `col_ids_idx` in the code). -/
inductive Col
  | cid
  | cids
deriving DecidableEq

/-- One staged `batch_update` cell write: 0-based row position in the
fetched sheet, column, value. -/
structure CellUpdate where
  row : Nat
  col : Col
  value : String
deriving DecidableEq

/-- Python dict lookup, later insertions winning. -/
def dlookup (m : List (String × String × String)) (k : String) :
    Option (String × String) :=
  (m.reverse.find? (fun p => p.1 == k)).map (fun p => p.2)

/-- `known_mappings` built from sheet rows that already carry an id. -/
def buildKnownMappings (sheet : List SheetRow) :
    List (String × String × String) :=
  sheet.foldl (fun km row =>
    if pyStrip row.id ≠ "" then
      if pyStrip row.product_original ≠ "" ∧ pyStrip row.id ≠ "" then
        km ++ [(pyStrip row.product_original, pyStrip row.id, pyStrip row.ids)]
      else km
    else km) []

/-- `'albert_heijn' in store.lower()` (Python substring containment). -/
def isAH (store : String) : Bool :=
  decide ("albert_heijn".data <:+: (pyLower store).data)

/-- The rows the pipeline processes — store matches and `id` blank —
paired with their 0-based sheet position. -/
def to_process (sheet : List SheetRow) : List (Nat × SheetRow) :=
  sheet.enum.filter (fun p => isAH p.2.store && (pyStrip p.2.id == ""))

/-- `f"{m[0]} ({int(m[2])}%)"`. -/
def fmtCand (m : String × String × ℚ) : String :=
  m.1 ++ " (" ++ toString (pyInt m.2.2) ++ "%)"

/-- One iteration of the processing loop; the state is
`(known_mappings, staged updates)` and `p` a row with its position. -/
def processRow (score : String → String → ℚ)
    (db_choices : List (String × String))
    (st : List (String × String × String) × List CellUpdate)
    (p : Nat × SheetRow) :
    List (String × String × String) × List CellUpdate :=
  if pyStrip p.2.product_original = "" then st
  else
    match dlookup st.1 (pyStrip p.2.product_original) with
    | some (found_id, found_ids) =>
      (st.1, st.2 ++ [⟨p.1, Col.cid, found_id⟩, ⟨p.1, Col.cids, found_ids⟩])
    | none =>
      match find_best_matches score (pyStrip p.2.product_original) db_choices with
      | [] => (st.1, st.2 ++ [⟨p.1, Col.cids, "No match found"⟩])
      | m :: rest =>
        (st.1 ++ [(pyStrip p.2.product_original, m.1,
            String.intercalate "; " ((m :: rest).map fmtCand))],
         st.2 ++ [⟨p.1, Col.cid, m.1⟩, ⟨p.1, Col.cids,
            String.intercalate "; " ((m :: rest).map fmtCand)⟩])

/-- Steps 3–5 of `run_mapping_pipeline`: fold the processing loop over
the rows to process, starting from the sheet-derived history; the result
is the staged `batch_update` list. -/
def run_mapping_pipeline (score : String → String → ℚ)
    (db_choices : List (String × String)) (sheet : List SheetRow) :
    List CellUpdate :=
  ((to_process sheet).foldl (processRow score db_choices)
    (buildKnownMappings sheet, [])).2

/-- The cell content a staged write puts into a row. -/
def setCol (u : CellUpdate) (r : SheetRow) : SheetRow :=
  match u.col with
  | Col.cid => { r with id := u.value }
  | Col.cids => { r with ids := u.value }

/-- Applying one staged cell write to the sheet. -/
def applyUpdate (sheet : List SheetRow) (u : CellUpdate) : List SheetRow :=
  sheet.enum.map (fun p => if p.1 = u.row then setCol u p.2 else p.2)

/-- `worksheet.batch_update(updates)`. -/
def applyUpdates : List SheetRow → List CellUpdate → List SheetRow
  | sheet, [] => sheet
  | sheet, u :: us => applyUpdates (applyUpdate sheet u) us

/-- Every returned candidate clears the threshold. -/
theorem mem_find_best_matches_ge (score : String → String → ℚ)
    (query : String) (choices : List (String × String)) :
    ∀ r ∈ find_best_matches score query choices, MATCH_THRESHOLD ≤ r.2.2 := by
  intro r hr
  unfold find_best_matches at hr
  rcases List.mem_map.mp hr with ⟨x, hx, hfx⟩
  have hp := (List.mem_filter.mp hx).2
  rw [← hfx]
  simpa using hp

/-- Returned candidates are sorted by score, descending. -/
theorem find_best_matches_pairwise (score : String → String → ℚ)
    (query : String) (choices : List (String × String)) :
    (find_best_matches score query choices).Pairwise
      (fun a b => b.2.2 ≤ a.2.2) := by
  unfold find_best_matches extract
  refine (List.pairwise_map).mpr ?_
  have hsorted := List.sorted_insertionSort scoreGE
    ((choices.map (fun p => p.1)).map (fun k => (k, score query k)))
  have htake := List.Pairwise.sublist (List.take_sublist 3 _) hsorted
  exact (htake.filter _).imp (fun h => h)

/-- At most three candidates are returned. -/
theorem find_best_matches_length_le (score : String → String → ℚ)
    (query : String) (choices : List (String × String)) :
    (find_best_matches score query choices).length ≤ 3 := by
  unfold find_best_matches
  rw [List.length_map]
  refine le_trans (List.length_filter_le _ _) ?_
  unfold extract
  rw [List.length_take]
  exact min_le_left _ _

/-- When candidates are returned, the first one scores at least as high
as every catalog key. -/
theorem find_best_matches_head_max (score : String → String → ℚ)
    (query : String) (choices : List (String × String))
    (m : String × String × ℚ) (rest : List (String × String × ℚ))
    (h : find_best_matches score query choices = m :: rest) :
    ∀ k ∈ choices.map (fun p => p.1), score query k ≤ m.2.2 := by
  intro k hk
  set pairs := (choices.map (fun p => p.1)).map (fun k => (k, score query k))
    with hpairs
  cases hs : List.insertionSort scoreGE pairs with
  | nil =>
    exfalso
    have hnil : find_best_matches score query choices = [] := by
      unfold find_best_matches extract
      rw [← hpairs, hs]
      rfl
    rw [h] at hnil
    cases hnil
  | cons p t =>
    have hsorted : (p :: t).Pairwise scoreGE := by
      rw [← hs]
      exact List.sorted_insertionSort scoreGE pairs
    have hrel := (List.pairwise_cons.mp hsorted).1
    have hex : extract score query (choices.map (fun q => q.1)) 3
        = p :: t.take 2 := by
      unfold extract
      rw [← hpairs, hs]
      rfl
    have hm : m.2.2 = p.2 := by
      by_cases hp : MATCH_THRESHOLD ≤ p.2
      · have hfbm : find_best_matches score query choices
            = (dGet choices p.1, p.1, p.2)
              :: ((t.take 2).filter (fun r => MATCH_THRESHOLD ≤ r.2)).map
                  (fun r => (dGet choices r.1, r.1, r.2)) := by
          unfold find_best_matches
          rw [hex]
          simp [List.filter_cons, hp]
        rw [h] at hfbm
        injection hfbm with h1 _
        rw [h1]
      · exfalso
        have hall : ∀ r ∈ p :: t.take 2, ¬ (MATCH_THRESHOLD ≤ r.2) := by
          intro r hr
          rcases List.mem_cons.mp hr with rfl | hr'
          · exact hp
          · intro hge
            exact hp (le_trans hge (hrel r (List.mem_of_mem_take hr')))
        have hnil : find_best_matches score query choices = [] := by
          unfold find_best_matches
          rw [hex]
          rw [show (p :: t.take 2).filter (fun r => MATCH_THRESHOLD ≤ r.2) = []
            from List.filter_eq_nil_iff.mpr (by
              intro a ha
              simpa using hall a ha)]
          rfl
        rw [h] at hnil
        cases hnil
    have hkp : (k, score query k) ∈ pairs := by
      rw [hpairs]
      exact List.mem_map.mpr ⟨k, hk, rfl⟩
    have hmemsort : (k, score query k) ∈ p :: t := by
      rw [← hs]
      exact (List.perm_insertionSort scoreGE pairs).mem_iff.mpr hkp
    rw [hm]
    rcases List.mem_cons.mp hmemsort with heq | hmem
    · exact le_of_eq (congrArg Prod.snd heq)
    · exact hrel _ hmem

theorem dlookup_append (km : List (String × String × String)) (k : String)
    (v : String × String) : dlookup (km ++ [(k, v)]) k = some v := by
  unfold dlookup
  rw [List.reverse_append]
  simp [List.find?]

/-- C5 (amended; threshold boundary): every candidate the function
returns clears the 85 threshold — so a score-84 candidate is always
rejected — and a candidate among the extract results (the top 3 by
score) whose score meets the threshold, e.g. exactly 85, is accepted. -/
theorem find_best_matches_threshold (score : String → String → ℚ)
    (query : String) (choices : List (String × String)) :
    (∀ r ∈ find_best_matches score query choices, MATCH_THRESHOLD ≤ r.2.2) ∧
    (∀ nm q, (nm, q) ∈ extract score query (choices.map (fun p => p.1)) 3 →
      MATCH_THRESHOLD ≤ q →
      (dGet choices nm, nm, q) ∈ find_best_matches score query choices) := by
  constructor
  · exact mem_find_best_matches_ge score query choices
  · intro nm q hmem hq
    unfold find_best_matches
    refine List.mem_map.mpr ⟨(nm, q), ?_, rfl⟩
    exact List.mem_filter.mpr ⟨hmem, by simpa using hq⟩

/-- C5 counterexample: with four candidates scoring 100, 99, 98 and 85,
the candidate scoring exactly 85 is not among the returned candidates —
`process.extract` keeps only the top 3 before the threshold filter — so
a score-85 candidate is not always accepted. -/
theorem find_best_matches_threshold_cex :
    (fun (_ k : String) => if k = "a" then (100:ℚ) else if k = "b" then 99
      else if k = "c" then 98 else 85) "q" "d" = 85 ∧
    ("d", "i4") ∈ [("a","i1"),("b","i2"),("c","i3"),("d","i4")] ∧
    ∀ r ∈ find_best_matches
        (fun (_ k : String) => if k = "a" then (100:ℚ) else if k = "b" then 99
          else if k = "c" then 98 else 85) "q"
        [("a","i1"),("b","i2"),("c","i3"),("d","i4")],
      r.2.1 ≠ "d" := by
  refine ⟨by decide, by decide, by decide⟩

/-- Witness for C5's amended theorem at a concrete scorer and catalog. -/
theorem find_best_matches_threshold_witness :
    (("x", (85:ℚ)) ∈ extract (fun _ _ => (85:ℚ)) "q"
        (([("x","id1")] : List (String × String)).map (fun p => p.1)) 3 ∧
      MATCH_THRESHOLD ≤ (85:ℚ)) ∧
    (dGet [("x","id1")] "x", "x", (85:ℚ))
      ∈ find_best_matches (fun _ _ => (85:ℚ)) "q" [("x","id1")] :=
  ⟨⟨by decide, by decide⟩,
    (find_best_matches_threshold (fun _ _ => (85:ℚ)) "q" [("x","id1")]).2
      "x" 85 (by decide) (by decide)⟩

/-- C6 (history wins over fuzzy, with intra-run learning): (1) a row
whose stripped name is present in the history table is resolved by
copying that entry's identifier and candidate string verbatim, with a
result independent of the scorer and the catalog — no fuzzy match is
consulted, even when fuzzy search would return a different top
candidate; (2) a row resolved by fuzzy matching immediately inserts its
(name, best id, candidate string) into the history table, so any later
row in the same run with an identical name is resolved by path (1). -/
theorem mapping_history_wins :
    (∀ (score : String → String → ℚ) (db_choices : List (String × String))
        (km : List (String × String × String)) (us : List CellUpdate)
        (idx : Nat) (row : SheetRow) (found_id found_ids : String),
      pyStrip row.product_original ≠ "" →
      dlookup km (pyStrip row.product_original) = some (found_id, found_ids) →
      processRow score db_choices (km, us) (idx, row)
        = (km, us ++ [⟨idx, Col.cid, found_id⟩, ⟨idx, Col.cids, found_ids⟩])) ∧
    (∀ (score : String → String → ℚ) (db_choices : List (String × String))
        (km : List (String × String × String)) (us : List CellUpdate)
        (idx : Nat) (row : SheetRow) (m : String × String × ℚ)
        (rest : List (String × String × ℚ)),
      pyStrip row.product_original ≠ "" →
      dlookup km (pyStrip row.product_original) = none →
      find_best_matches score (pyStrip row.product_original) db_choices
        = m :: rest →
      dlookup (processRow score db_choices (km, us) (idx, row)).1
          (pyStrip row.product_original)
        = some (m.1, String.intercalate "; " ((m :: rest).map fmtCand))) := by
  constructor
  · intro score db km us idx row fid fids hname hdl
    simp only [processRow]
    rw [if_neg hname, hdl]
  · intro score db km us idx row m rest hname hdl hfbm
    simp only [processRow]
    rw [if_neg hname, hdl, hfbm]
    exact dlookup_append km (pyStrip row.product_original)
      (m.1, String.intercalate "; " ((m :: rest).map fmtCand))

/-- C7 (fuzzy resolution output format): when the history misses and at
least one candidate clears the threshold, the staged writes are exactly
the top candidate's identifier into the id column and the semicolon-join
of `"{id} ({int(score)}%)"` over all qualifying candidates into the ids
column; the top candidate scores at least every other returned candidate
and indeed every catalog key, all returned candidates clear the
threshold, and at most 3 are returned. -/
theorem fuzzy_resolution_format (score : String → String → ℚ)
    (db_choices : List (String × String))
    (km : List (String × String × String)) (us : List CellUpdate)
    (idx : Nat) (row : SheetRow) (m : String × String × ℚ)
    (rest : List (String × String × ℚ))
    (hname : pyStrip row.product_original ≠ "")
    (hkm : dlookup km (pyStrip row.product_original) = none)
    (hfbm : find_best_matches score (pyStrip row.product_original) db_choices
      = m :: rest) :
    (processRow score db_choices (km, us) (idx, row)).2
      = us ++ [⟨idx, Col.cid, m.1⟩, ⟨idx, Col.cids,
          String.intercalate "; " ((m :: rest).map fmtCand)⟩] ∧
    (∀ x ∈ m :: rest, x.2.2 ≤ m.2.2) ∧
    (∀ x ∈ m :: rest, MATCH_THRESHOLD ≤ x.2.2) ∧
    (∀ k ∈ db_choices.map (fun p => p.1),
      score (pyStrip row.product_original) k ≤ m.2.2) ∧
    (m :: rest).length ≤ 3 := by
  refine ⟨?_, ?_, ?_, ?_, ?_⟩
  · simp only [processRow]
    rw [if_neg hname, hkm, hfbm]
  · have hpw := find_best_matches_pairwise score
      (pyStrip row.product_original) db_choices
    rw [hfbm] at hpw
    intro x hx
    rcases List.mem_cons.mp hx with rfl | hx'
    · exact le_refl _
    · exact (List.pairwise_cons.mp hpw).1 x hx'
  · intro x hx
    exact mem_find_best_matches_ge score _ db_choices x (by rw [hfbm]; exact hx)
  · exact find_best_matches_head_max _ _ _ _ _ hfbm
  · rw [← hfbm]
    exact find_best_matches_length_le _ _ _

/-- C8 (no-match behaviour): when the history misses and no candidate
clears the threshold, the only staged write for the row puts the
explicit marker "No match found" into the ids column; nothing is staged
for the id column, which therefore stays blank. -/
theorem no_match_marker (score : String → String → ℚ)
    (db_choices : List (String × String))
    (km : List (String × String × String)) (us : List CellUpdate)
    (idx : Nat) (row : SheetRow)
    (hname : pyStrip row.product_original ≠ "")
    (hkm : dlookup km (pyStrip row.product_original) = none)
    (hfbm : find_best_matches score (pyStrip row.product_original) db_choices
      = []) :
    processRow score db_choices (km, us) (idx, row)
      = (km, us ++ [⟨idx, Col.cids, "No match found"⟩]) := by
  simp only [processRow]
  rw [if_neg hname, hkm, hfbm]

theorem processRow_updates_sub (score : String → String → ℚ)
    (db_choices : List (String × String))
    (st : List (String × String × String) × List CellUpdate)
    (p : Nat × SheetRow) :
    ∀ u ∈ (processRow score db_choices st p).2, u ∈ st.2 ∨ u.row = p.1 := by
  intro u hu
  simp only [processRow] at hu
  by_cases hname : pyStrip p.2.product_original = ""
  · rw [if_pos hname] at hu
    exact Or.inl hu
  · rw [if_neg hname] at hu
    cases hdl : dlookup st.1 (pyStrip p.2.product_original) with
    | some pr =>
      obtain ⟨fid, fids⟩ := pr
      rw [hdl] at hu
      rcases List.mem_append.mp hu with h | h
      · exact Or.inl h
      · right
        rcases List.mem_cons.mp h with rfl | h2
        · rfl
        · rcases List.mem_cons.mp h2 with rfl | h3
          · rfl
          · cases h3
    | none =>
      rw [hdl] at hu
      cases hfbm : find_best_matches score (pyStrip p.2.product_original)
          db_choices with
      | nil =>
        rw [hfbm] at hu
        rcases List.mem_append.mp hu with h | h
        · exact Or.inl h
        · right
          rcases List.mem_cons.mp h with rfl | h2
          · rfl
          · cases h2
      | cons m rest =>
        rw [hfbm] at hu
        rcases List.mem_append.mp hu with h | h
        · exact Or.inl h
        · right
          rcases List.mem_cons.mp h with rfl | h2
          · rfl
          · rcases List.mem_cons.mp h2 with rfl | h3
            · rfl
            · cases h3

theorem foldl_processRow_updates (score : String → String → ℚ)
    (db_choices : List (String × String)) :
    ∀ (l : List (Nat × SheetRow))
      (st : List (String × String × String) × List CellUpdate),
      ∀ u ∈ (l.foldl (processRow score db_choices) st).2,
        u ∈ st.2 ∨ ∃ p ∈ l, u.row = p.1 := by
  intro l
  induction l with
  | nil => intro st u hu; exact Or.inl hu
  | cons p l ih =>
    intro st u hu
    rw [List.foldl_cons] at hu
    rcases ih (processRow score db_choices st p) u hu with h | ⟨q, hq, hr⟩
    · rcases processRow_updates_sub score db_choices st p u h with h' | h'
      · exact Or.inl h'
      · exact Or.inr ⟨p, List.mem_cons_self p l, h'⟩
    · exact Or.inr ⟨q, List.mem_cons_of_mem p hq, hr⟩

theorem to_process_mem (sheet : List SheetRow) (p : Nat × SheetRow)
    (hp : p ∈ to_process sheet) :
    sheet[p.1]? = some p.2 ∧ isAH p.2.store = true ∧ pyStrip p.2.id = "" := by
  unfold to_process at hp
  have h1 := (List.mem_filter.mp hp).1
  have h2 := (List.mem_filter.mp hp).2
  rw [Bool.and_eq_true] at h2
  exact ⟨List.mem_enum_iff_getElem?.mp h1, h2.1, by simpa using h2.2⟩

theorem applyUpdate_getElem? (sheet : List SheetRow) (u : CellUpdate)
    (i : Nat) :
    (applyUpdate sheet u)[i]?
      = (sheet[i]?).map (fun r => if i = u.row then setCol u r else r) := by
  unfold applyUpdate
  rw [List.getElem?_map, List.getElem?_enum]
  cases sheet[i]? with
  | none => rfl
  | some r => rfl

theorem applyUpdate_getElem?_ne (sheet : List SheetRow) (u : CellUpdate)
    (i : Nat) (h : i ≠ u.row) : (applyUpdate sheet u)[i]? = sheet[i]? := by
  rw [applyUpdate_getElem?]
  cases sheet[i]? with
  | none => rfl
  | some r => simp [if_neg h]

theorem applyUpdates_getElem?_ne (us : List CellUpdate) :
    ∀ (sheet : List SheetRow) (i : Nat), (∀ u ∈ us, u.row ≠ i) →
      (applyUpdates sheet us)[i]? = sheet[i]? := by
  induction us with
  | nil => intro sheet i _; rfl
  | cons u us ih =>
    intro sheet i h
    rw [show applyUpdates sheet (u :: us)
        = applyUpdates (applyUpdate sheet u) us from rfl]
    rw [ih (applyUpdate sheet u) i (fun v hv => h v (List.mem_cons_of_mem u hv))]
    exact applyUpdate_getElem?_ne sheet u i
      (fun he => h u (List.mem_cons_self u us) he.symm)

theorem setCol_preserves (u : CellUpdate) (r : SheetRow) :
    (setCol u r).product_original = r.product_original ∧
    (setCol u r).store = r.store ∧ (setCol u r).extra = r.extra := by
  cases hc : u.col <;> simp [setCol, hc]

theorem applyUpdates_preserves (us : List CellUpdate) :
    ∀ (sheet : List SheetRow) (i : Nat) (r : SheetRow), sheet[i]? = some r →
      ∃ r', (applyUpdates sheet us)[i]? = some r' ∧
        r'.product_original = r.product_original ∧ r'.store = r.store ∧
        r'.extra = r.extra := by
  induction us with
  | nil => intro sheet i r h; exact ⟨r, h, rfl, rfl, rfl⟩
  | cons u us ih =>
    intro sheet i r h
    have h1 : (applyUpdate sheet u)[i]?
        = some (if i = u.row then setCol u r else r) := by
      rw [applyUpdate_getElem?, h]
      rfl
    rcases ih (applyUpdate sheet u) i _ h1 with ⟨r', hr', hp, hs, he⟩
    have hproj : (if i = u.row then setCol u r else r).product_original
        = r.product_original ∧
        (if i = u.row then setCol u r else r).store = r.store ∧
        (if i = u.row then setCol u r else r).extra = r.extra := by
      by_cases hi : i = u.row
      · rw [if_pos hi]
        exact setCol_preserves u r
      · rw [if_neg hi]
        exact ⟨rfl, rfl, rfl⟩
    refine ⟨r', hr', ?_, ?_, ?_⟩
    · rw [hp, hproj.1]
    · rw [hs, hproj.2.1]
    · rw [he, hproj.2.2]

/-- C9 (ledger write scoping, frame property): every staged write of a
pipeline run targets the id or ids column of a row whose store matches
`albert_heijn` and whose id cell is blank; applying the staged batch
leaves every row not meeting that condition entirely unchanged, and on
every row it leaves all columns other than id and ids unchanged. -/
theorem ledger_write_scoping (score : String → String → ℚ)
    (db_choices : List (String × String)) (sheet : List SheetRow) :
    (∀ u ∈ run_mapping_pipeline score db_choices sheet,
      (u.col = Col.cid ∨ u.col = Col.cids) ∧
      ∃ r, sheet[u.row]? = some r ∧ isAH r.store = true ∧ pyStrip r.id = "") ∧
    (∀ (i : Nat) (r : SheetRow), sheet[i]? = some r →
      ¬(isAH r.store = true ∧ pyStrip r.id = "") →
      (applyUpdates sheet (run_mapping_pipeline score db_choices sheet))[i]?
        = some r) ∧
    (∀ (i : Nat) (r : SheetRow), sheet[i]? = some r →
      ∃ r', (applyUpdates sheet
          (run_mapping_pipeline score db_choices sheet))[i]? = some r' ∧
        r'.product_original = r.product_original ∧ r'.store = r.store ∧
        r'.extra = r.extra) := by
  have hrows : ∀ u ∈ run_mapping_pipeline score db_choices sheet,
      ∃ r, sheet[u.row]? = some r ∧ isAH r.store = true ∧ pyStrip r.id = "" := by
    intro u hu
    unfold run_mapping_pipeline at hu
    rcases foldl_processRow_updates score db_choices (to_process sheet)
        (buildKnownMappings sheet, []) u hu with h | ⟨p, hp, hr⟩
    · exact absurd h (List.not_mem_nil u)
    · rcases to_process_mem sheet p hp with ⟨hget, hah, hid⟩
      exact ⟨p.2, by rw [hr]; exact hget, hah, hid⟩
  refine ⟨?_, ?_, ?_⟩
  · intro u hu
    refine ⟨?_, hrows u hu⟩
    cases u.col
    · left; rfl
    · right; rfl
  · intro i r h hcond
    have hne : ∀ u ∈ run_mapping_pipeline score db_choices sheet, u.row ≠ i := by
      intro u hu hrow
      rcases hrows u hu with ⟨r', hr', hah, hid⟩
      rw [hrow, h] at hr'
      injection hr' with hr''
      exact hcond (by rw [hr'']; exact ⟨hah, hid⟩)
    rw [applyUpdates_getElem?_ne _ sheet i hne]
    exact h
  · intro i r h
    exact applyUpdates_preserves _ sheet i r h

/-- Witness for C6 at a concrete history, catalog and row. -/
theorem mapping_history_wins_witness :
    (pyStrip "Halfvolle melk" ≠ "" ∧
      dlookup [("Halfvolle melk", "X9", "X9 (90%)")] (pyStrip "Halfvolle melk")
        = some ("X9", "X9 (90%)") ∧
      processRow (fun _ _ => (0:ℚ)) [("Halfvolle Melk 1L", "AH123")]
          ([("Halfvolle melk", "X9", "X9 (90%)")], [])
          (0, ⟨"Halfvolle melk", "albert_heijn", "", "", ""⟩)
        = ([("Halfvolle melk", "X9", "X9 (90%)")],
           [] ++ [⟨0, Col.cid, "X9"⟩, ⟨0, Col.cids, "X9 (90%)"⟩])) ∧
    (dlookup [] (pyStrip "Halfvolle melk") = none ∧
      find_best_matches (fun _ _ => (95:ℚ)) (pyStrip "Halfvolle melk")
          [("Halfvolle Melk 1L", "AH123")]
        = [("AH123", "Halfvolle Melk 1L", (95:ℚ))] ∧
      dlookup (processRow (fun _ _ => (95:ℚ)) [("Halfvolle Melk 1L", "AH123")]
          ([], []) (0, ⟨"Halfvolle melk", "albert_heijn", "", "", ""⟩)).1
          (pyStrip "Halfvolle melk")
        = some ("AH123",
            String.intercalate "; "
              ([("AH123", "Halfvolle Melk 1L", (95:ℚ))].map fmtCand))) :=
  ⟨⟨by decide, by decide,
      mapping_history_wins.1 (fun _ _ => (0:ℚ)) [("Halfvolle Melk 1L", "AH123")]
        [("Halfvolle melk", "X9", "X9 (90%)")] [] 0
        ⟨"Halfvolle melk", "albert_heijn", "", "", ""⟩ "X9" "X9 (90%)"
        (by decide) (by decide)⟩,
    ⟨by decide, by decide,
      mapping_history_wins.2 (fun _ _ => (95:ℚ)) [("Halfvolle Melk 1L", "AH123")]
        [] [] 0 ⟨"Halfvolle melk", "albert_heijn", "", "", ""⟩
        ("AH123", "Halfvolle Melk 1L", (95:ℚ)) []
        (by decide) (by decide) (by decide)⟩⟩

/-- Witness for C7 at a concrete catalog and row. -/
theorem fuzzy_resolution_format_witness :
    (pyStrip "Halfvolle melk" ≠ "" ∧
      dlookup [] (pyStrip "Halfvolle melk") = none ∧
      find_best_matches (fun _ _ => (95:ℚ)) (pyStrip "Halfvolle melk")
          [("Halfvolle Melk 1L", "AH123")]
        = [("AH123", "Halfvolle Melk 1L", (95:ℚ))]) ∧
    ((processRow (fun _ _ => (95:ℚ)) [("Halfvolle Melk 1L", "AH123")] ([], [])
        (0, ⟨"Halfvolle melk", "albert_heijn", "", "", ""⟩)).2
      = [] ++ [⟨0, Col.cid, ("AH123", "Halfvolle Melk 1L", (95:ℚ)).1⟩,
          ⟨0, Col.cids, String.intercalate "; "
            ([("AH123", "Halfvolle Melk 1L", (95:ℚ))].map fmtCand)⟩] ∧
    (∀ x ∈ [("AH123", "Halfvolle Melk 1L", (95:ℚ))],
      x.2.2 ≤ ("AH123", "Halfvolle Melk 1L", (95:ℚ)).2.2) ∧
    (∀ x ∈ [("AH123", "Halfvolle Melk 1L", (95:ℚ))],
      MATCH_THRESHOLD ≤ x.2.2) ∧
    (∀ k ∈ ([("Halfvolle Melk 1L", "AH123")] : List (String × String)).map
        (fun p => p.1),
      (fun (_ _ : String) => (95:ℚ)) (pyStrip "Halfvolle melk") k
        ≤ ("AH123", "Halfvolle Melk 1L", (95:ℚ)).2.2) ∧
    ([("AH123", "Halfvolle Melk 1L", (95:ℚ))] : List (String × String × ℚ)).length ≤ 3) :=
  ⟨⟨by decide, by decide, by decide⟩,
    fuzzy_resolution_format (fun _ _ => (95:ℚ)) [("Halfvolle Melk 1L", "AH123")]
      [] [] 0 ⟨"Halfvolle melk", "albert_heijn", "", "", ""⟩
      ("AH123", "Halfvolle Melk 1L", (95:ℚ)) []
      (by decide) (by decide) (by decide)⟩

/-- Witness for C8 at a concrete catalog and the spec's no-match row. -/
theorem no_match_marker_witness :
    (pyStrip "Kattenbrokjes" ≠ "" ∧
      dlookup [] (pyStrip "Kattenbrokjes") = none ∧
      find_best_matches (fun _ _ => (50:ℚ)) (pyStrip "Kattenbrokjes")
          [("Halfvolle Melk 1L", "AH123")] = []) ∧
    processRow (fun _ _ => (50:ℚ)) [("Halfvolle Melk 1L", "AH123")] ([], [])
        (0, ⟨"Kattenbrokjes", "albert_heijn", "", "", ""⟩)
      = ([], [] ++ [⟨0, Col.cids, "No match found"⟩]) :=
  ⟨⟨by decide, by decide, by decide⟩,
    no_match_marker (fun _ _ => (50:ℚ)) [("Halfvolle Melk 1L", "AH123")]
      [] [] 0 ⟨"Kattenbrokjes", "albert_heijn", "", "", ""⟩
      (by decide) (by decide) (by decide)⟩

/-- Witness for C9 at a concrete scorer, catalog and two-row sheet. -/
theorem ledger_write_scoping_witness :
    (∀ u ∈ run_mapping_pipeline (fun _ _ => (95:ℚ))
        [("Halfvolle Melk 1L", "AH123")]
        [⟨"Halfvolle melk", "albert_heijn", "", "", ""⟩,
         ⟨"Brood", "lidl", "L1", "x", "y"⟩],
      (u.col = Col.cid ∨ u.col = Col.cids) ∧
      ∃ r, ([⟨"Halfvolle melk", "albert_heijn", "", "", ""⟩,
          ⟨"Brood", "lidl", "L1", "x", "y"⟩] : List SheetRow)[u.row]? = some r ∧
        isAH r.store = true ∧ pyStrip r.id = "") ∧
    (∀ (i : Nat) (r : SheetRow),
      ([⟨"Halfvolle melk", "albert_heijn", "", "", ""⟩,
          ⟨"Brood", "lidl", "L1", "x", "y"⟩] : List SheetRow)[i]? = some r →
      ¬(isAH r.store = true ∧ pyStrip r.id = "") →
      (applyUpdates [⟨"Halfvolle melk", "albert_heijn", "", "", ""⟩,
          ⟨"Brood", "lidl", "L1", "x", "y"⟩]
        (run_mapping_pipeline (fun _ _ => (95:ℚ))
          [("Halfvolle Melk 1L", "AH123")]
          [⟨"Halfvolle melk", "albert_heijn", "", "", ""⟩,
           ⟨"Brood", "lidl", "L1", "x", "y"⟩]))[i]? = some r) ∧
    (∀ (i : Nat) (r : SheetRow),
      ([⟨"Halfvolle melk", "albert_heijn", "", "", ""⟩,
          ⟨"Brood", "lidl", "L1", "x", "y"⟩] : List SheetRow)[i]? = some r →
      ∃ r', (applyUpdates [⟨"Halfvolle melk", "albert_heijn", "", "", ""⟩,
          ⟨"Brood", "lidl", "L1", "x", "y"⟩]
        (run_mapping_pipeline (fun _ _ => (95:ℚ))
          [("Halfvolle Melk 1L", "AH123")]
          [⟨"Halfvolle melk", "albert_heijn", "", "", ""⟩,
           ⟨"Brood", "lidl", "L1", "x", "y"⟩]))[i]? = some r' ∧
        r'.product_original = r.product_original ∧ r'.store = r.store ∧
        r'.extra = r.extra) :=
  ledger_write_scoping (fun _ _ => (95:ℚ)) [("Halfvolle Melk 1L", "AH123")]
    [⟨"Halfvolle melk", "albert_heijn", "", "", ""⟩,
     ⟨"Brood", "lidl", "L1", "x", "y"⟩]
